import Mathlib

/-!
Shallow embedding of the animated-image decode-and-playback engine of
`src/anim.rs` (the `ImageProtocol` enum, its `ResizeEncodeRender` impl,
`try_advance`, and `protocols_from_animated_bytes`).

Modelling conventions:
* `StatefulProtocol` values, decoded frames, decoded still images, raw byte
  buffers, `Resize` values, `Rect` values and buffers are opaque type
  parameters: the claims never inspect them, only track which ones flow where.
* `Instant` timestamps and `as_millis` elapsed times are `Nat` milliseconds;
  `Instant::duration_since` saturates at zero, matching `Nat` subtraction.
* The external decoders (`GifDecoder::new`, `WebPDecoder::new`,
  `collect_frames`, `image::load_from_memory`) and the picker's
  `new_resize_protocol` are fields of a `DecodeEnv` record, since they are
  third-party library calls whose internals the loader never looks into.
* The `f64` delay computation `(num / den).round() as u64` is embedded as
  exact rational rounding half away from zero, `(2*num + den) / (2*den)`
  over `Nat` (for `u32` inputs the `f64` quotient is correctly rounded, so
  the two agree away from representation-error-sized neighbourhoods of ties;
  every concrete value used below is far from a tie).
-/

namespace Anim

/-- Embedding of `enum ImageProtocol { Single(StatefulProtocol), Animated { frames, delays_ms, current, last_change } }`
from src/anim.rs, with the protocol type opaque and `Instant` as `Nat` milliseconds. -/
inductive ImageProtocol (π : Type) : Type where
  | Single (p : π)
  | Animated (frames : List π) (delays_ms : List Nat) (current : Nat) (last_change : Nat)
deriving DecidableEq

/-- Embedding of `ImageProtocol::try_advance` (src/anim.rs lines 59-82). The Rust
method reads `Instant::now()` internally; here `now` is passed in. It returns the
updated handle together with the `bool` the Rust method returns. -/
def ImageProtocol.try_advance (self : ImageProtocol π) (now : Nat) : ImageProtocol π × Bool :=
  match self with
  | .Animated frames delays_ms current last_change =>
    if frames.isEmpty || delays_ms.isEmpty then
      (.Animated frames delays_ms current last_change, false)
    else
      let delay := (delays_ms.get? current).getD 100
      if now - last_change ≥ delay then
        (.Animated frames delays_ms ((current + 1) % frames.length) now, true)
      else
        (.Animated frames delays_ms current last_change, false)
  | .Single p => (.Single p, false)

/-- Embedding of `ImageProtocol::render` (src/anim.rs lines 12-21). The underlying
`StatefulProtocol::render` takes `&mut self` and writes into the buffer, so it is
passed in as `subRender : π → ρ → τ → π × τ`; `frames[*current]` indexing is
modelled with `getD` (all uses are in bounds by the §3 invariant). -/
def ImageProtocol.render [Inhabited π] (subRender : π → ρ → τ → π × τ)
    (self : ImageProtocol π) (area : ρ) (buf : τ) : ImageProtocol π × τ :=
  match self with
  | .Single p =>
    let r := subRender p area buf
    (.Single r.1, r.2)
  | .Animated frames delays_ms current last_change =>
    let r := subRender (frames.getD current default) area buf
    (.Animated (frames.set current r.1) delays_ms current last_change, r.2)

/-- Embedding of `ImageProtocol::resize_encode` (src/anim.rs lines 23-32), with the
underlying `StatefulProtocol::resize_encode` passed in as `subRE`. -/
def ImageProtocol.resize_encode [Inhabited π] (subRE : π → σ → ρ → π)
    (self : ImageProtocol π) (resize : σ) (area : ρ) : ImageProtocol π :=
  match self with
  | .Single p => .Single (subRE p resize area)
  | .Animated frames delays_ms current last_change =>
    .Animated (frames.set current (subRE (frames.getD current default) resize area))
      delays_ms current last_change

/-- Embedding of `ImageProtocol::needs_resize` (src/anim.rs lines 34-45), with the
underlying `StatefulProtocol::needs_resize` passed in as `subNR`. -/
def ImageProtocol.needs_resize [Inhabited π] (subNR : π → σ → ρ → Option ρ)
    (self : ImageProtocol π) (resize : σ) (area : ρ) : Option ρ :=
  match self with
  | .Single p => subNR p resize area
  | .Animated frames _ current _ => subNR (frames.getD current default) resize area

/-- External-library interface used by `protocols_from_animated_bytes`
(src/anim.rs lines 94-146): the two container decoders, the generic
still-image decoder, and the picker. `gifNew`/`webpNew` record whether
`GifDecoder::new`/`WebPDecoder::new` return `Ok` on the bytes;
`gifCollect`/`webpCollect` are the corresponding
`into_frames().collect_frames()` results; `now0` is the `Instant::now()`
taken when the `Animated` value is built. `frameImg` is
`DynamicImage::ImageRgba8(frame.clone().into_buffer())` and
`numer_denom_ms` is `frame.delay().numer_denom_ms()` (a `u32` pair whose
denominator is nonzero by the `Ratio` invariant of the image crate). -/
structure DecodeEnv (β φ ι π ε σ ρ : Type) where
  gifNew : β → Bool
  gifCollect : β → Except ε (List φ)
  webpNew : β → Bool
  webpCollect : β → Except ε (List φ)
  load_from_memory : β → Except ε ι
  new_resize_protocol : ι → π
  subResizeEncode : π → σ → ρ → π
  fitNone : σ
  rectDefault : ρ
  frameImg : φ → ι
  numer_denom_ms : φ → Nat × Nat
  now0 : Nat

/-- The frame-collection trial of src/anim.rs lines 97-106: try `GifDecoder::new`
first, then `WebPDecoder::new`; `none` means neither container decoder accepted
the bytes (the `else` branch that falls back to `image::load_from_memory`). -/
def decodedFrames (env : DecodeEnv β φ ι π ε σ ρ) (bytes : β) : Option (Except ε (List φ)) :=
  if env.gifNew bytes then some (env.gifCollect bytes)
  else if env.webpNew bytes then some (env.webpCollect bytes)
  else none

/-- Embedding of `(delay_num as f64 / delay_den as f64).round() as u64` together
with the `if delay_num == 0 { 100 }` guard (src/anim.rs lines 132-136), with the
float rounding taken as exact rational rounding half away from zero. -/
def delayFromNumDen (num den : Nat) : Nat :=
  if num = 0 then 100 else (2 * num + den) / (2 * den)

/-- The per-frame protocol construction of the loop body (src/anim.rs lines
119-128): build a resize protocol from the frame's pixel buffer, then
`resize_encode(&Resize::Fit(None), Rect::default())`. -/
def frameProto (env : DecodeEnv β φ ι π ε σ ρ) (f : φ) : π :=
  env.subResizeEncode (env.new_resize_protocol (env.frameImg f)) env.fitNone env.rectDefault

/-- The per-frame delay computation of the loop body (src/anim.rs lines 121,
132-137). -/
def frameDelay (env : DecodeEnv β φ ι π ε σ ρ) (f : φ) : Nat :=
  delayFromNumDen (env.numer_denom_ms f).1 (env.numer_denom_ms f).2

/-- Embedding of `protocols_from_animated_bytes` (src/anim.rs lines 94-146).
The Rust loop pushes one protocol and one delay per frame in order; that is the
two `List.map`s below. -/
def protocols_from_animated_bytes (env : DecodeEnv β φ ι π ε σ ρ) (bytes : β) :
    Except ε (ImageProtocol π) :=
  match decodedFrames env bytes with
  | none =>
    match env.load_from_memory bytes with
    | .error e => .error e
    | .ok img => .ok (.Single (env.new_resize_protocol img))
  | some (.error e) => .error e
  | some (.ok frames) =>
    if frames.length ≤ 1 then
      match env.load_from_memory bytes with
      | .error e => .error e
      | .ok img => .ok (.Single (env.new_resize_protocol img))
    else
      .ok (.Animated (frames.map (frameProto env)) (frames.map (frameDelay env)) 0 env.now0)

/-- Frames of a handle (`[]` for `Single`), used to state per-frame properties. -/
def framesOf : ImageProtocol π → List π
  | .Single _ => []
  | .Animated frames _ _ _ => frames

/-- Delays of a handle (`[]` for `Single`), used to state per-delay properties. -/
def delaysOf : ImageProtocol π → List Nat
  | .Single _ => []
  | .Animated _ delays_ms _ _ => delays_ms

/-- Current frame index of a handle (`none` for `Single`). -/
def currentOf : ImageProtocol π → Option Nat
  | .Single _ => none
  | .Animated _ _ current _ => some current

/-- Last-transition timestamp of a handle (`none` for `Single`). -/
def lastChangeOf : ImageProtocol π → Option Nat
  | .Single _ => none
  | .Animated _ _ _ last_change => some last_change

/-- The §3 invariant of `PlaybackState`: frame and delay lists have equal length,
both at least 2, and the current index is in bounds. `Single` handles carry no
playback state, so the invariant is trivially true there. -/
def Inv : ImageProtocol π → Prop
  | .Single _ => True
  | .Animated frames delays_ms current _ =>
    frames.length = delays_ms.length ∧ 2 ≤ frames.length ∧ current < frames.length

/-- C1: whenever the elapsed time since the last transition reaches the current
frame's own delay, `try_advance` moves `current` forward by exactly one step
modulo the frame count, stamps `last_change = now`, and returns `true` — the
new index is `(current + 1) % frames.length` however large the elapsed time is,
so there is no multi-step catch-up. -/
theorem try_advance_advances_one_step (π : Type) (frames : List π) (delays_ms : List Nat)
    (current last_change now d : Nat)
    (hf : frames ≠ [])
    (hd : delays_ms.get? current = some d)
    (helapsed : d ≤ now - last_change) :
    ImageProtocol.try_advance (.Animated frames delays_ms current last_change) now
      = (.Animated frames delays_ms ((current + 1) % frames.length) now, true) := by
  have hfe : frames.isEmpty = false := by
    cases frames with
    | nil => exact absurd rfl hf
    | cons a l => rfl
  have hde : delays_ms.isEmpty = false := by
    cases delays_ms with
    | nil => simp at hd
    | cons a l => rfl
  have hd2 : delays_ms[current]? = some d := by
    rw [← List.get?_eq_getElem?]; exact hd
  simp [ImageProtocol.try_advance, hfe, hde, hd2, helapsed]

/-- Witness for C1: three frames with 50 ms delays, current index 1,
last transition at 60 ms, called at 115 ms: the handle advances to index 2. -/
theorem try_advance_advances_one_step_witness :
    ImageProtocol.try_advance
        (.Animated ([10, 20, 30] : List Nat) [50, 50, 50] 1 60) 115
      = (.Animated [10, 20, 30] [50, 50, 50] 2 115, true) :=
  try_advance_advances_one_step Nat [10, 20, 30] [50, 50, 50] 1 60 115 50
    (by decide) (by decide) (by decide)

/-- C2: while the elapsed time since the last transition is still below the
current frame's delay, `try_advance` returns `false` and leaves every field of
the playback state unchanged. -/
theorem try_advance_noop_before_delay (π : Type) (frames : List π) (delays_ms : List Nat)
    (current last_change now d : Nat)
    (hd : delays_ms.get? current = some d)
    (hlt : now - last_change < d) :
    ImageProtocol.try_advance (.Animated frames delays_ms current last_change) now
      = (.Animated frames delays_ms current last_change, false) := by
  have hde : delays_ms.isEmpty = false := by
    cases delays_ms with
    | nil => simp at hd
    | cons a l => rfl
  by_cases hfe : frames.isEmpty
  · simp [ImageProtocol.try_advance, hfe]
  · have hnot : ¬ d ≤ now - last_change := not_le.mpr hlt
    have hd2 : delays_ms[current]? = some d := by
      rw [← List.get?_eq_getElem?]; exact hd
    simp [ImageProtocol.try_advance, hfe, hde, hd2, hnot, hlt]

/-- Witness for C2: three frames with 50 ms delays, current index 0, last
transition at 0, called at 40 ms: `try_advance` returns `false` and the state
is unchanged. -/
theorem try_advance_noop_before_delay_witness :
    ImageProtocol.try_advance
        (.Animated ([10, 20, 30] : List Nat) [50, 50, 50] 0 0) 40
      = (.Animated [10, 20, 30] [50, 50, 50] 0 0, false) :=
  try_advance_noop_before_delay Nat [10, 20, 30] [50, 50, 50] 0 0 40 50
    (by decide) (by decide)

/-- C10: `try_advance` on a `Single` handle is the wildcard arm of the match:
it returns `false` and the handle is unchanged, for every call time. -/
theorem try_advance_single_noop (π : Type) (p : π) (now : Nat) :
    ImageProtocol.try_advance (.Single p) now = (.Single p, false) := rfl

/-- C8: `render` on an `Animated` handle draws exactly the frame at `current`
(the drawn output is `subRender` applied to `frames[current]`), and never
advances playback: the resulting handle keeps the same `current` index, the
same `last_change` timestamp, and the same delays — only the drawn
sub-protocol's own state may change in place. -/
theorem render_draws_current_frame (π ρ τ : Type) [Inhabited π]
    (subRender : π → ρ → τ → π × τ) (frames : List π) (delays_ms : List Nat)
    (current last_change : Nat) (area : ρ) (buf : τ) :
    ImageProtocol.render subRender (.Animated frames delays_ms current last_change) area buf
      = (.Animated (frames.set current (subRender (frames.getD current default) area buf).1)
           delays_ms current last_change,
         (subRender (frames.getD current default) area buf).2)
    ∧ currentOf (ImageProtocol.render subRender
        (.Animated frames delays_ms current last_change) area buf).1 = some current
    ∧ lastChangeOf (ImageProtocol.render subRender
        (.Animated frames delays_ms current last_change) area buf).1 = some last_change :=
  ⟨rfl, rfl, rfl⟩

/-- Inversion helper: a load that returns an `Animated` handle must have gone
through the multi-frame branch, so the handle's fields are the per-frame maps
over a decoded frame list of length at least 2, index 0 and timestamp `now0`. -/
theorem protocols_ok_animated (env : DecodeEnv β φ ι π ε σ ρ) (bytes : β)
    (frames : List π) (delays_ms : List Nat) (current last_change : Nat)
    (h : protocols_from_animated_bytes env bytes
          = .ok (.Animated frames delays_ms current last_change)) :
    ∃ fr, decodedFrames env bytes = some (.ok fr) ∧ 1 < fr.length
      ∧ frames = fr.map (frameProto env) ∧ delays_ms = fr.map (frameDelay env)
      ∧ current = 0 ∧ last_change = env.now0 := by
  unfold protocols_from_animated_bytes at h
  rcases hdf : decodedFrames env bytes with _ | fr
  · rw [hdf] at h
    rcases hlm : env.load_from_memory bytes with e | img <;> rw [hlm] at h <;> simp at h
  · rcases fr with e | fr
    · rw [hdf] at h; simp at h
    · rw [hdf] at h
      simp only [] at h
      by_cases hlen : fr.length ≤ 1
      · rw [if_pos hlen] at h
        rcases hlm : env.load_from_memory bytes with e | img <;> rw [hlm] at h <;> simp at h
      · rw [if_neg hlen] at h
        refine ⟨fr, rfl, by omega, ?_⟩
        have h2 := h
        simp only [Except.ok.injEq, ImageProtocol.Animated.injEq] at h2
        obtain ⟨h3, h4, h5, h6⟩ := h2
        exact ⟨h3.symm, h4.symm, h5.symm, h6.symm⟩

/-- C5: every `Animated` handle satisfies the §3 invariant (equal frame and
delay counts, both at least 2, current index in bounds): it is established by
the load entry point `protocols_from_animated_bytes` and preserved by every
call to `try_advance`, the only mutator. -/
theorem animated_invariant_established_and_preserved (β φ ι π ε σ ρ : Type) :
    (∀ (env : DecodeEnv β φ ι π ε σ ρ) (bytes : β) (ip : ImageProtocol π),
        protocols_from_animated_bytes env bytes = .ok ip → Inv ip)
    ∧ (∀ (ip : ImageProtocol π) (now : Nat), Inv ip → Inv (ip.try_advance now).1) := by
  constructor
  · intro env bytes ip h
    cases ip with
    | Single p => trivial
    | Animated frames delays_ms current last_change =>
      obtain ⟨fr, _, hlen, hfr, hdl, hc, _⟩ :=
        protocols_ok_animated env bytes frames delays_ms current last_change h
      refine ⟨?_, ?_, ?_⟩
      · rw [hfr, hdl]; simp
      · rw [hfr]; simp; omega
      · rw [hc, hfr]; simp; omega
  · intro ip now hInv
    cases ip with
    | Single p => trivial
    | Animated frames delays_ms current last_change =>
      obtain ⟨hlen, h2, hcur⟩ := hInv
      have hfe : frames.isEmpty = false := by
        cases frames with
        | nil => simp at h2
        | cons a l => rfl
      have hde : delays_ms.isEmpty = false := by
        cases delays_ms with
        | nil => rw [List.length_nil] at hlen; omega
        | cons a l => rfl
      unfold ImageProtocol.try_advance
      simp only [hfe, hde, Bool.or_self, Bool.false_eq_true, if_false]
      by_cases hadv : now - last_change ≥ (delays_ms.get? current).getD 100
      · rw [if_pos hadv]
        exact ⟨hlen, h2, Nat.mod_lt _ (by omega)⟩
      · rw [if_neg hadv]
        exact ⟨hlen, h2, hcur⟩

/-- Concrete decode environment for the C5 witness: the GIF decoder accepts
and yields two frames with 10 ms and 20 ms delays. -/
def cenv5 : DecodeEnv Unit Nat Nat Nat Unit Unit Unit where
  gifNew _ := true
  gifCollect _ := .ok [1, 2]
  webpNew _ := false
  webpCollect _ := .ok []
  load_from_memory _ := .error ()
  new_resize_protocol i := i
  subResizeEncode p _ _ := p
  fitNone := ()
  rectDefault := ()
  frameImg f := f
  numer_denom_ms f := (10 * f, 1)
  now0 := 0

/-- Witness for C5: the handle built by the load entry point over `cenv5`
satisfies the invariant, and still satisfies it after `try_advance` at 15 ms. -/
theorem animated_invariant_witness :
    Inv (ImageProtocol.Animated ([1, 2] : List Nat) [10, 20] 0 0)
    ∧ Inv ((ImageProtocol.Animated ([1, 2] : List Nat) [10, 20] 0 0).try_advance 15).1 := by
  have h := animated_invariant_established_and_preserved Unit Nat Nat Nat Unit Unit Unit
  have h1 : Inv (ImageProtocol.Animated ([1, 2] : List Nat) [10, 20] 0 0) :=
    h.1 cenv5 () (.Animated [1, 2] [10, 20] 0 0) rfl
  exact ⟨h1, h.2 (.Animated [1, 2] [10, 20] 0 0) 15 h1⟩

/-- Reduction equation for the loader when neither container decoder accepts. -/
theorem protocols_eq_none (env : DecodeEnv β φ ι π ε σ ρ) (bytes : β)
    (h : decodedFrames env bytes = none) :
    protocols_from_animated_bytes env bytes
      = match env.load_from_memory bytes with
        | .error e => .error e
        | .ok img => .ok (.Single (env.new_resize_protocol img)) := by
  unfold protocols_from_animated_bytes; rw [h]

/-- Reduction equation for the loader when frame collection fails. -/
theorem protocols_eq_some_error (env : DecodeEnv β φ ι π ε σ ρ) (bytes : β) (e : ε)
    (h : decodedFrames env bytes = some (.error e)) :
    protocols_from_animated_bytes env bytes = .error e := by
  unfold protocols_from_animated_bytes; rw [h]

/-- Reduction equation for the loader when frame collection succeeds. -/
theorem protocols_eq_some_ok (env : DecodeEnv β φ ι π ε σ ρ) (bytes : β) (fr : List φ)
    (h : decodedFrames env bytes = some (.ok fr)) :
    protocols_from_animated_bytes env bytes
      = if fr.length ≤ 1 then
          match env.load_from_memory bytes with
          | .error e => .error e
          | .ok img => .ok (.Single (env.new_resize_protocol img))
        else
          .ok (.Animated (fr.map (frameProto env)) (fr.map (frameDelay env)) 0 env.now0) := by
  unfold protocols_from_animated_bytes; rw [h]

/-- C3: whenever every successful frame-collection yields at most one frame
(which also covers the case where no container decoder accepted the bytes),
the load entry point never returns an `Animated` handle: the result is either
an error or a `Single` handle built by re-decoding the bytes as a still image. -/
theorem small_decode_never_animated (β φ ι π ε σ ρ : Type)
    (env : DecodeEnv β φ ι π ε σ ρ) (bytes : β)
    (h : ∀ fr, decodedFrames env bytes = some (.ok fr) → fr.length ≤ 1) :
    (∃ e, protocols_from_animated_bytes env bytes = .error e)
    ∨ (∃ img, env.load_from_memory bytes = .ok img
        ∧ protocols_from_animated_bytes env bytes
            = .ok (.Single (env.new_resize_protocol img))) := by
  rcases hdf : decodedFrames env bytes with _ | fr
  · rw [protocols_eq_none env bytes hdf]
    rcases hlm : env.load_from_memory bytes with e | img
    · exact .inl ⟨e, rfl⟩
    · exact .inr ⟨img, rfl, rfl⟩
  · rcases fr with e | fr
    · exact .inl ⟨e, protocols_eq_some_error env bytes e hdf⟩
    · have hlen : fr.length ≤ 1 := h fr hdf
      rw [protocols_eq_some_ok env bytes fr hdf, if_pos hlen]
      rcases hlm : env.load_from_memory bytes with e | img
      · exact .inl ⟨e, rfl⟩
      · exact .inr ⟨img, rfl, rfl⟩

/-- Concrete decode environment for the C3 witness: the GIF decoder accepts
but collects a single frame, and the still-image re-decode yields image 99. -/
def cenv3 : DecodeEnv Unit Nat Nat Nat Unit Unit Unit where
  gifNew _ := true
  gifCollect _ := .ok [5]
  webpNew _ := false
  webpCollect _ := .ok []
  load_from_memory _ := .ok 99
  new_resize_protocol i := i
  subResizeEncode p _ _ := p
  fitNone := ()
  rectDefault := ()
  frameImg f := f
  numer_denom_ms f := (f, 1)
  now0 := 0

/-- Witness for C3: over `cenv3` (one decoded frame) the load entry point
returns an error or a `Single` handle — concretely it is `Single 99`. -/
theorem small_decode_never_animated_witness :
    (∃ e, protocols_from_animated_bytes cenv3 () = .error e)
    ∨ (∃ img, cenv3.load_from_memory () = .ok img
        ∧ protocols_from_animated_bytes cenv3 ()
            = .ok (.Single (cenv3.new_resize_protocol img))) :=
  small_decode_never_animated Unit Nat Nat Nat Unit Unit Unit cenv3 ()
    (by
      intro fr hfr
      have h5 : fr = [5] := by
        have : (some (Except.ok [5]) : Option (Except Unit (List Nat)))
            = some (.ok fr) := by
          rw [← hfr]; rfl
        simpa using this.symm
      rw [h5]; decide)

/-- C9: the loader tries the GIF container decoder first — when
`GifDecoder::new` accepts, the collected frames are the GIF ones and WebP is
never consulted; when GIF rejects and WebP accepts, the WebP frames are used;
and the generic still-image fallback branch is taken exactly when neither
container decoder accepts the bytes. -/
theorem decode_trial_order (β φ ι π ε σ ρ : Type)
    (env : DecodeEnv β φ ι π ε σ ρ) (bytes : β) :
    (env.gifNew bytes = true → decodedFrames env bytes = some (env.gifCollect bytes))
    ∧ (env.gifNew bytes = false → env.webpNew bytes = true →
        decodedFrames env bytes = some (env.webpCollect bytes))
    ∧ (decodedFrames env bytes = none
        ↔ env.gifNew bytes = false ∧ env.webpNew bytes = false)
    ∧ (env.gifNew bytes = false → env.webpNew bytes = false →
        protocols_from_animated_bytes env bytes
          = match env.load_from_memory bytes with
            | .error e => .error e
            | .ok img => .ok (.Single (env.new_resize_protocol img))) := by
  refine ⟨?_, ?_, ⟨?_, ?_⟩, ?_⟩
  · intro hg; simp [decodedFrames, hg]
  · intro hg hw; simp [decodedFrames, hg, hw]
  · intro hn
    unfold decodedFrames at hn
    by_cases hg : env.gifNew bytes
    · rw [if_pos hg] at hn; exact absurd hn (by simp)
    · rw [if_neg hg] at hn
      by_cases hw : env.webpNew bytes
      · rw [if_pos hw] at hn; exact absurd hn (by simp)
      · exact ⟨by simpa using hg, by simpa using hw⟩
  · rintro ⟨hg, hw⟩; simp [decodedFrames, hg, hw]
  · intro hg hw
    have hn : decodedFrames env bytes = none := by simp [decodedFrames, hg, hw]
    unfold protocols_from_animated_bytes
    rw [hn]

/-- Concrete decode environment for the C9 witness: neither container decoder
accepts, and the generic still-image decode yields image 3. -/
def cenv9 : DecodeEnv Unit Nat Nat Nat Unit Unit Unit where
  gifNew _ := false
  gifCollect _ := .ok []
  webpNew _ := false
  webpCollect _ := .ok []
  load_from_memory _ := .ok 3
  new_resize_protocol i := i
  subResizeEncode p _ _ := p
  fitNone := ()
  rectDefault := ()
  frameImg f := f
  numer_denom_ms f := (f, 1)
  now0 := 0

/-- Witness for C9: over `cenv3` (GIF accepts) the collected frames are the
GIF ones, and over `cenv9` (neither accepts) the loader takes the generic
still-image fallback, producing `Single 3`. -/
theorem decode_trial_order_witness :
    decodedFrames cenv3 () = some (cenv3.gifCollect ())
    ∧ protocols_from_animated_bytes cenv9 () = .ok (.Single 3) := by
  have h3 := (decode_trial_order Unit Nat Nat Nat Unit Unit Unit cenv3 ()).1 rfl
  have h9 := (decode_trial_order Unit Nat Nat Nat Unit Unit Unit cenv9 ()).2.2.2 rfl rfl
  exact ⟨h3, h9.trans rfl⟩

/-- Positivity of a stored delay when the source duration is at least half a
millisecond (or has zero numerator, in which case the default 100 is stored). -/
theorem delayFromNumDen_pos (num den : Nat) (hden : 0 < den) (hle : den ≤ 2 * num) :
    0 < delayFromNumDen num den := by
  unfold delayFromNumDen
  by_cases h : num = 0
  · rw [if_pos h]; omega
  · rw [if_neg h]
    exact Nat.div_pos (by omega) (by omega)

/-- Concrete decode environment for C4: the GIF decoder accepts and yields two
frames, the first with a 1/10 ms duration (`numer_denom_ms = (1, 10)`), the
second with a 50 ms duration. -/
def cenv4 : DecodeEnv Unit Nat Nat Nat Unit Unit Unit where
  gifNew _ := true
  gifCollect _ := .ok [0, 1]
  webpNew _ := false
  webpCollect _ := .ok []
  load_from_memory _ := .error ()
  new_resize_protocol i := i
  subResizeEncode p _ _ := p
  fitNone := ()
  rectDefault := ()
  frameImg f := f
  numer_denom_ms f := if f = 0 then (1, 10) else (50, 1)
  now0 := 0

/-- C4 counterexample: a source frame duration of 1/10 ms has nonzero numerator,
so the code skips the `delay_num == 0` default and stores
`round(1/10) = 0` — the load entry point returns an `Animated` handle whose
first stored delay is `0`, so not every stored delay is strictly positive and a
duration whose computed millisecond value is zero is stored as `0`, not `100`. -/
theorem stored_delay_zero_counterexample :
    protocols_from_animated_bytes cenv4 () = .ok (.Animated [0, 1] [0, 50] 0 0)
    ∧ ¬ (∀ d ∈ delaysOf (ImageProtocol.Animated ([0, 1] : List Nat) [0, 50] 0 0), 0 < d)
    ∧ delayFromNumDen 1 10 = 0 := by
  refine ⟨rfl, by decide, by decide⟩

/-- C4 amended: every delay stored by the load entry point is
`delayFromNumDen num den` for the source frame's duration `num / den` ms; a
zero-numerator duration is stored as the fixed default 100 ms, and the stored
delay is strictly positive whenever the source duration is at least half a
millisecond (`den ≤ 2 * num`) — but a sub-half-millisecond duration with
nonzero numerator (such as 1/10 ms) rounds to and is stored as 0. -/
theorem stored_delays_amended (β φ ι π ε σ ρ : Type)
    (env : DecodeEnv β φ ι π ε σ ρ) (bytes : β)
    (frames : List π) (delays_ms : List Nat) (current last_change : Nat)
    (h : protocols_from_animated_bytes env bytes
          = .ok (.Animated frames delays_ms current last_change)) :
    ∀ d ∈ delays_ms, ∃ fr f, decodedFrames env bytes = some (.ok fr) ∧ f ∈ fr
      ∧ d = delayFromNumDen (env.numer_denom_ms f).1 (env.numer_denom_ms f).2
      ∧ ((env.numer_denom_ms f).1 = 0 → d = 100)
      ∧ (0 < (env.numer_denom_ms f).2 →
          (env.numer_denom_ms f).2 ≤ 2 * (env.numer_denom_ms f).1 → 0 < d) := by
  intro d hd
  obtain ⟨fr, hdf, _, _, hdl, _, _⟩ :=
    protocols_ok_animated env bytes frames delays_ms current last_change h
  rw [hdl] at hd
  obtain ⟨f, hf, hdeq⟩ := List.mem_map.mp hd
  refine ⟨fr, f, hdf, hf, ?_, ?_, ?_⟩
  · rw [← hdeq]; rfl
  · intro hnum
    rw [← hdeq]
    unfold frameDelay delayFromNumDen
    rw [if_pos hnum]
  · intro hden hle
    rw [← hdeq]
    exact delayFromNumDen_pos _ _ hden hle

/-- Witness for the amended C4: over `cenv4` the stored delay 50 comes from the
second frame's 50/1 ms duration and is positive. -/
theorem stored_delays_amended_witness :
    ∃ fr f, decodedFrames cenv4 () = some (.ok fr) ∧ f ∈ fr
      ∧ 50 = delayFromNumDen (cenv4.numer_denom_ms f).1 (cenv4.numer_denom_ms f).2
      ∧ ((cenv4.numer_denom_ms f).1 = 0 → 50 = 100)
      ∧ (0 < (cenv4.numer_denom_ms f).2 →
          (cenv4.numer_denom_ms f).2 ≤ 2 * (cenv4.numer_denom_ms f).1 → 0 < 50) :=
  stored_delays_amended Unit Nat Nat Nat Unit Unit Unit cenv4 () [0, 1] [0, 50] 0 0
    rfl 50 (by decide)

/-- C6 counterexample: with a re-encode step that bumps a frame's state by one,
an `Animated` handle with frames `[0, 0]` and current index 0 comes out of
`resize_encode` as `[1, 0]` — not `[1, 1]`, which re-running the step on every
stored frame would produce. The frame at index 1 is untouched. -/
theorem resize_encode_counterexample :
    ImageProtocol.resize_encode (fun (p : Nat) (_ : Unit) (_ : Unit) => p + 1)
        (.Animated [0, 0] [100, 100] 0 0) () ()
      = .Animated [1, 0] [100, 100] 0 0
    ∧ framesOf (ImageProtocol.resize_encode (fun (p : Nat) (_ : Unit) (_ : Unit) => p + 1)
        (.Animated [0, 0] [100, 100] 0 0) () ())
      ≠ List.map (fun p => p + 1) [0, 0] := by
  exact ⟨rfl, by decide⟩

/-- C6 amended: `resize_encode` on an `Animated` handle re-runs the
resize-and-encode step only on the frame at `current`; every other stored
frame, and all other fields, are left unchanged. -/
theorem resize_encode_current_only (π σ ρ : Type) [Inhabited π] (subRE : π → σ → ρ → π)
    (frames : List π) (delays_ms : List Nat) (current last_change : Nat)
    (rz : σ) (area : ρ) :
    ImageProtocol.resize_encode subRE (.Animated frames delays_ms current last_change) rz area
      = .Animated (frames.set current (subRE (frames.getD current default) rz area))
          delays_ms current last_change
    ∧ ∀ j, j ≠ current →
        (framesOf (ImageProtocol.resize_encode subRE
            (.Animated frames delays_ms current last_change) rz area))[j]?
          = frames[j]? := by
  refine ⟨rfl, ?_⟩
  intro j hj
  show (frames.set current (subRE (frames.getD current default) rz area))[j]? = frames[j]?
  exact List.getElem?_set_ne (by omega)

/-- Witness for the amended C6: on frames `[7, 8]` with current index 0, the
frame at index 1 is unchanged by `resize_encode`. -/
theorem resize_encode_current_only_witness :
    (framesOf (ImageProtocol.resize_encode (fun (p : Nat) (_ : Unit) (_ : Unit) => p + 1)
        (.Animated [7, 8] [100, 100] 0 0) () ()))[1]?
      = ([7, 8] : List Nat)[1]? :=
  (resize_encode_current_only Nat Unit Unit (fun p _ _ => p + 1)
      [7, 8] [100, 100] 0 0 () ()).2 1 (by decide)

/-- C7 counterexample: with an underlying `needs_resize` that answers `none` on
frame state 0 and `some area` otherwise, an `Animated` handle with frames
`[0, 5]` and current index 1 answers `some 7` — while consulting the first
stored frame (index 0) would answer `none`. `needs_resize` therefore does not
consult only the first frame for every value of the current index. -/
theorem needs_resize_counterexample :
    ImageProtocol.needs_resize
        (fun (p : Nat) (_ : Unit) (a : Nat) => if p = 0 then none else some a)
        (.Animated [0, 5] [100, 100] 1 0) () 7
      = some 7
    ∧ (fun (p : Nat) (_ : Unit) (a : Nat) => if p = 0 then none else some a)
        (([0, 5] : List Nat).getD 0 0) () 7
      = none := by
  exact ⟨rfl, rfl⟩

/-- C7 amended: `needs_resize` on an `Animated` handle consults exactly the
frame at `current` — which is the first frame only when `current = 0`. -/
theorem needs_resize_current_frame (π σ ρ : Type) [Inhabited π]
    (subNR : π → σ → ρ → Option ρ) (frames : List π) (delays_ms : List Nat)
    (current last_change : Nat) (rz : σ) (area : ρ) :
    ImageProtocol.needs_resize subNR (.Animated frames delays_ms current last_change) rz area
      = subNR (frames.getD current default) rz area := rfl

end Anim
